import Mathlib

/-!
# Verification of the Gamma distribution core (src/src/distribution/gamma.rs)

Shallow embedding of the Gamma-distribution module.  `f64` values are
modelled by the type `F`: NaN, the two infinities, and finite values
represented exactly as rationals (finite arithmetic is exact, i.e. the
model ignores rounding and overflow of intermediate finite results, and
has no negative zero; the special-value propagation of IEEE 754 is kept).

External collaborators are parameters of the embedding:
* `SpecFuns` — the special-function provider (`gamma`, `ln_gamma`,
  `digamma`, `gamma_lr`), opaque `F`-level functions;
* `MathFuns` — the finite graphs of the standard float operations
  `exp`, `ln`, `powf`, `sqrt`; their IEEE-mandated behaviour on special
  values (infinities, zero and negative arguments, NaN) is baked into the
  lifting functions `expF`, `lnF`, `powfF`, `sqrtF`;
* `RandomSource` — indexed streams of uniform and standard-normal draws.

The ULP-based approximate equality used at the two branch points of
`cdf`/`pdf`/`ln_pdf` is modelled concretely after the comparison the
source uses (absolute difference within machine epsilon, else equal sign
and bit-pattern distance at most four ULPs), with the `f64` bit pattern of
a finite value computed from its exact rational value.
-/

/-- Model of an `f64` value: NaN, `+∞`, `-∞`, or an exact finite value. -/
inductive F where
  | nan : F
  | inf : F
  | ninf : F
  | finite : ℚ → F
  deriving DecidableEq

namespace F

/-- `f64::is_nan`. -/
def isNaN : F → Bool
  | nan => true
  | _ => false

/-- `f64::is_infinite`. -/
def isInfinite : F → Bool
  | inf => true
  | ninf => true
  | _ => false

/-- `f64::is_finite`. -/
def isFinite : F → Bool
  | finite _ => true
  | _ => false

/-- IEEE `<=` (false whenever an operand is NaN). -/
def le : F → F → Bool
  | nan, _ => false
  | _, nan => false
  | ninf, _ => true
  | _, ninf => false
  | _, inf => true
  | inf, _ => false
  | finite a, finite b => decide (a ≤ b)

/-- IEEE `<` (false whenever an operand is NaN). -/
def lt : F → F → Bool
  | nan, _ => false
  | _, nan => false
  | ninf, ninf => false
  | ninf, _ => true
  | _, ninf => false
  | inf, _ => false
  | _, inf => true
  | finite a, finite b => decide (a < b)

/-- IEEE negation. -/
def neg : F → F
  | nan => nan
  | inf => ninf
  | ninf => inf
  | finite a => finite (-a)

/-- IEEE addition (exact on finite operands). -/
def add : F → F → F
  | nan, _ => nan
  | _, nan => nan
  | inf, ninf => nan
  | ninf, inf => nan
  | inf, _ => inf
  | _, inf => inf
  | ninf, _ => ninf
  | _, ninf => ninf
  | finite a, finite b => finite (a + b)

/-- IEEE subtraction, as addition of the negation. -/
def sub (a b : F) : F := add a (neg b)

/-- IEEE multiplication (exact on finite operands; `0 * ±∞ = NaN`). -/
def mul : F → F → F
  | nan, _ => nan
  | _, nan => nan
  | inf, inf => inf
  | inf, ninf => ninf
  | ninf, inf => ninf
  | ninf, ninf => inf
  | inf, finite b => if 0 < b then inf else if b < 0 then ninf else nan
  | finite a, inf => if 0 < a then inf else if a < 0 then ninf else nan
  | ninf, finite b => if 0 < b then ninf else if b < 0 then inf else nan
  | finite a, ninf => if 0 < a then ninf else if a < 0 then inf else nan
  | finite a, finite b => finite (a * b)

/-- IEEE division (exact on finite operands; `x/0 = ±∞` for `x ≠ 0`,
`0/0 = ∞/∞ = NaN`, `finite/±∞ = 0`). -/
def div : F → F → F
  | nan, _ => nan
  | _, nan => nan
  | inf, inf => nan
  | inf, ninf => nan
  | ninf, inf => nan
  | ninf, ninf => nan
  | inf, finite b => if 0 ≤ b then inf else ninf
  | ninf, finite b => if 0 ≤ b then ninf else inf
  | finite _, inf => finite 0
  | finite _, ninf => finite 0
  | finite a, finite b =>
      if b = 0 then
        (if a = 0 then nan else if 0 < a then inf else ninf)
      else finite (a / b)

/-- IEEE absolute value. -/
def abs : F → F
  | nan => nan
  | inf => inf
  | ninf => inf
  | finite a => finite |a|

instance : LE F := ⟨fun a b => F.le a b = true⟩

instance : LT F := ⟨fun a b => F.lt a b = true⟩

instance (a b : F) : Decidable (a ≤ b) :=
  inferInstanceAs (Decidable (F.le a b = true))

instance (a b : F) : Decidable (a < b) :=
  inferInstanceAs (Decidable (F.lt a b = true))

instance (n : ℕ) : OfNat F n := ⟨F.finite (OfNat.ofNat n)⟩

end F

/-! ## ULP-based approximate equality

Modelled from the spec: the near-equality primitive used at the two branch
points ("shape ≈ 1", "x ≈ shape"), which the spec describes as a comparison
"operating on the bit-pattern distance or a relative/absolute epsilon".
The source delegates it to an external comparison macro whose behaviour is:
return true when the absolute difference is at most the machine epsilon
`2^-52`; otherwise require equal signs and a distance of at most 4 between
the IEEE 754 bit patterns reinterpreted as signed 64-bit integers.  The bit
pattern of a finite positive value is reconstructed here from its exact
rational value. -/

/-- Binary search for the floor of the base-2 logarithm: shrinks the
bracket `[lo, hi)` (invariant `2 ^ lo ≤ n < 2 ^ hi`) with explicit fuel;
the shallow recursion keeps the computation evaluable. -/
def log2bs : ℕ → ℕ → ℕ → ℕ → ℕ
  | 0, lo, _, _ => lo
  | fuel + 1, lo, hi, n =>
    let mid := (lo + hi) / 2
    if mid = lo then lo
    else if Nat.shiftLeft 1 mid ≤ n then log2bs fuel mid hi n
    else log2bs fuel lo mid n

/-- `⌊log₂ n⌋` for `1 ≤ n < 2 ^ 2200`. -/
def natLog2 (n : ℕ) : ℕ := log2bs 20 0 2200 n

/-- `2 ^ k` as an integer, computed by shifting (evaluable without deep
recursion throughout the `f64` exponent range). -/
def pow2Z (k : ℕ) : ℤ := Int.ofNat (Nat.shiftLeft 1 k)

/-- `⌊log₂ q⌋` for a positive rational `q`. -/
def ilog2 (q : ℚ) : ℤ :=
  if 1 ≤ q then (natLog2 q.floor.toNat : ℤ)
  else
    let r := 1 / q
    let f := natLog2 r.floor.toNat
    if r ≤ Rat.divInt (pow2Z f) 1 then -(f : ℤ) else -((f : ℤ) + 1)

/-- IEEE 754 binary64 bit pattern of a positive finite value given by its
exact rational value (normal, subnormal and overflowing ranges). -/
def toBits (q : ℚ) : ℤ :=
  if q ≤ 0 then 0
  else
    let e := ilog2 q
    if e < -1022 then (Rat.divInt (q.num * pow2Z 1074) (Int.ofNat q.den)).floor
    else if 1023 < e then 2047 * 2 ^ (52 : ℕ)
    else
      let m : ℚ :=
        if 0 ≤ e then Rat.divInt q.num (Int.ofNat q.den * pow2Z e.toNat)
        else Rat.divInt (q.num * pow2Z (-e).toNat) (Int.ofNat q.den)
      (e + 1023) * 2 ^ (52 : ℕ) + ((m - 1) * 2 ^ (52 : ℕ)).floor

/-- Bit pattern of an `F` value reinterpreted as a signed 64-bit integer
(the sign bit makes negative values negative integers). -/
def fbits : F → ℤ
  | F.nan => 0
  | F.inf => 2047 * 2 ^ (52 : ℕ)
  | F.ninf => -(2 ^ (63 : ℕ)) + 2047 * 2 ^ (52 : ℕ)
  | F.finite q => if q < 0 then -(2 ^ (63 : ℕ)) + toBits (-q) else toBits q

/-- Equality of `signum()` values; false whenever an operand is NaN
(`NaN != NaN` holds for the float comparison the source relies on). -/
def sameSign : F → F → Bool
  | F.nan, _ => false
  | _, F.nan => false
  | a, b =>
    (match a with | F.ninf => false | F.finite q => decide (0 ≤ q) | _ => true) ==
    (match b with | F.ninf => false | F.finite q => decide (0 ≤ q) | _ => true)

/-- The machine epsilon `f64::EPSILON = 2^-52` used as the absolute
tolerance. -/
def epsQ : ℚ := 1 / 2 ^ (52 : ℕ)

/-- The ULP comparison at the source's two approximate-equality branch
points: absolute difference within epsilon, or equal signs and bit-pattern
distance at most 4 ULPs. -/
def F.ulpsEq (a b : F) : Bool :=
  F.le (F.abs (F.sub a b)) (F.finite epsQ) ||
    (sameSign a b && decide ((fbits a - fbits b).natAbs ≤ 4))

/-! ## External collaborators -/

/-- The special-function provider: `Γ`, `ln Γ`, digamma `ψ`, and the
regularized lower incomplete gamma `P(a, x)` (`gamma::gamma`,
`gamma::ln_gamma`, `gamma::digamma`, `gamma::gamma_lr` in the source),
opaque float-level functions. -/
structure SpecFuns where
  gamma : F → F
  ln_gamma : F → F
  digamma : F → F
  gamma_lr : F → F → F

/-- The finite graphs of the standard float operations used by the module
(`f64::exp`, `f64::ln`, `f64::powf`, `f64::sqrt`): each field gives the
value of the operation at finite arguments where the result is finite and
not settled by an IEEE special case. -/
structure MathFuns where
  exp : ℚ → ℚ
  ln : ℚ → ℚ
  powf : ℚ → ℚ → ℚ
  sqrt : ℚ → ℚ

/-- Lift of `f64::exp`: `exp(+∞) = +∞`, `exp(-∞) = 0`, NaN propagates. -/
def expF (e : ℚ → ℚ) : F → F
  | F.nan => F.nan
  | F.inf => F.inf
  | F.ninf => F.finite 0
  | F.finite q => F.finite (e q)

/-- Lift of `f64::ln`: `ln(+∞) = +∞`, `ln(0) = -∞`, `ln x = NaN` for
`x < 0`, NaN propagates. -/
def lnF (l : ℚ → ℚ) : F → F
  | F.nan => F.nan
  | F.inf => F.inf
  | F.ninf => F.nan
  | F.finite q => if q < 0 then F.nan else if q = 0 then F.ninf else F.finite (l q)

/-- Lift of `f64::sqrt`: `sqrt(+∞) = +∞`, `sqrt 0 = 0`, NaN for negative
arguments, NaN propagates. -/
def sqrtF (s : ℚ → ℚ) : F → F
  | F.nan => F.nan
  | F.inf => F.inf
  | F.ninf => F.nan
  | F.finite q => if q < 0 then F.nan else if q = 0 then F.finite 0 else F.finite (s q)

/-- Lift of `f64::powf` (IEEE `pow`): the special cases for exponent `0`,
base `1`, NaN operands, infinite operands, base `0` and negative bases are
fixed by IEEE 754; a finite positive base with a finite nonzero exponent
delegates to the provided finite graph. -/
def powfF (p : ℚ → ℚ → ℚ) : F → F → F := fun b y =>
  match b, y with
  | _, F.finite yq =>
    if yq = 0 then F.finite 1
    else
      match b with
      | F.nan => F.nan
      | F.inf => if 0 < yq then F.inf else F.finite 0
      | F.ninf =>
        if yq.den = 1 ∧ Odd yq.num then (if 0 < yq then F.ninf else F.finite 0)
        else (if 0 < yq then F.inf else F.finite 0)
      | F.finite bq =>
        if bq = 1 then F.finite 1
        else if bq = 0 then (if 0 < yq then F.finite 0 else F.inf)
        else if 0 < bq then F.finite (p bq yq)
        else
          if yq.den = 1 then
            (if Odd yq.num then F.finite (-(p (-bq) yq)) else F.finite (p (-bq) yq))
          else F.nan
  | F.finite bq, F.inf =>
    if bq = 1 ∨ bq = -1 then F.finite 1
    else if 1 < bq ∨ bq < -1 then F.inf else F.finite 0
  | F.finite bq, F.ninf =>
    if bq = 1 ∨ bq = -1 then F.finite 1
    else if 1 < bq ∨ bq < -1 then F.finite 0 else F.inf
  | F.nan, _ => F.nan
  | F.inf, F.inf => F.inf
  | F.inf, F.ninf => F.finite 0
  | F.ninf, F.inf => F.inf
  | F.ninf, F.ninf => F.finite 0
  | _, F.nan => F.nan

/-- One source of randomness, modelled from the spec's RandomSource
contract: indexed streams of independent uniform draws in `[0,1)` and of
standard-normal draws (the standard-normal sampler is an external
collaborator consumed as an opaque primitive). -/
structure RandomSource where
  uniform : ℕ → F
  normal : ℕ → F

/-! ## The Gamma distribution -/

/-- The one error kind of the module. -/
inductive StatsError where
  | badParams : StatsError
  deriving DecidableEq

/-- `Gamma { shape, rate }` (source lines 22–26). -/
structure Gamma where
  shape : F
  rate : F
  deriving DecidableEq

/-- `Gamma::new` (source lines 48–55): error when a parameter is NaN or
nonpositive, otherwise the validated value.  The `shape` and `rate`
accessors of the source are the structure projections. -/
def Gamma.new (shape rate : F) : Except StatsError Gamma :=
  if shape.isNaN || rate.isNaN then Except.error StatsError.badParams
  else if F.le shape 0 || F.le rate 0 then Except.error StatsError.badParams
  else Except.ok ⟨shape, rate⟩

/-- Parameters accepted by `Gamma::new`: strictly positive (hence
non-NaN). -/
def ValidParams (shape rate : F) : Prop :=
  F.lt 0 shape = true ∧ F.lt 0 rate = true

/-- A `Gamma` value with parameters accepted by the constructor. -/
def Gamma.Valid (g : Gamma) : Prop := ValidParams g.shape g.rate

instance (shape rate : F) : Decidable (ValidParams shape rate) :=
  inferInstanceAs (Decidable (_ ∧ _))

instance (g : Gamma) : Decidable g.Valid :=
  inferInstanceAs (Decidable (ValidParams _ _))

/-- `Gamma::cdf` (source lines 105–117). -/
def Gamma.cdf (sf : SpecFuns) (g : Gamma) (x : F) : F :=
  if F.le x 0 then F.finite 0
  else if F.ulpsEq x g.shape && g.rate.isInfinite then F.finite 1
  else if g.rate.isInfinite then F.finite 0
  else if x.isInfinite then F.finite 1
  else sf.gamma_lr g.shape (F.mul x g.rate)

/-- `Gamma::ln_pdf` (source lines 267–279). -/
def Gamma.ln_pdf (sf : SpecFuns) (mf : MathFuns) (g : Gamma) (x : F) : F :=
  if F.lt x 0 then F.ninf
  else if F.ulpsEq g.shape (F.finite 1) then
    F.sub (lnF mf.ln g.rate) (F.mul g.rate x)
  else if x.isInfinite then F.ninf
  else
    F.sub
      (F.sub
        (F.add (F.mul g.shape (lnF mf.ln g.rate))
          (F.mul (F.sub g.shape (F.finite 1)) (lnF mf.ln x)))
        (F.mul g.rate x))
      (sf.ln_gamma g.shape)

/-- `Gamma::pdf` (source lines 236–249). -/
def Gamma.pdf (sf : SpecFuns) (mf : MathFuns) (g : Gamma) (x : F) : F :=
  if F.lt x 0 then F.finite 0
  else if F.ulpsEq g.shape (F.finite 1) then
    F.mul g.rate (expF mf.exp (F.mul (F.neg g.rate) x))
  else if F.lt (F.finite 160) g.shape then expF mf.exp (Gamma.ln_pdf sf mf g x)
  else if x.isInfinite then F.finite 0
  else
    F.div
      (F.mul
        (F.mul (powfF mf.powf g.rate g.shape)
          (powfF mf.powf x (F.sub g.shape (F.finite 1))))
        (expF mf.exp (F.mul (F.neg g.rate) x)))
      (sf.gamma g.shape)

/-- `Gamma::mean` (source lines 160–162). -/
def Gamma.mean (g : Gamma) : Option F := some (F.div g.shape g.rate)

/-- `Gamma::variance` (source lines 172–174). -/
def Gamma.variance (g : Gamma) : Option F :=
  some (F.div g.shape (F.mul g.rate g.rate))

/-- `Gamma::entropy` (source lines 185–190). -/
def Gamma.entropy (sf : SpecFuns) (mf : MathFuns) (g : Gamma) : Option F :=
  some
    (F.add
      (F.add (F.sub g.shape (lnF mf.ln g.rate)) (sf.ln_gamma g.shape))
      (F.mul (F.sub (F.finite 1) g.shape) (sf.digamma g.shape)))

/-- `Gamma::skewness` (source lines 200–202). -/
def Gamma.skewness (mf : MathFuns) (g : Gamma) : Option F :=
  some (F.div (F.finite 2) (sqrtF mf.sqrt g.shape))

/-- `Gamma::mode` (source lines 215–217). -/
def Gamma.mode (g : Gamma) : Option F :=
  some (F.div (F.sub g.shape (F.finite 1)) g.rate)

/-! ## The sampler (`sample_unchecked`, source lines 292–320)

The rejection loops are unbounded in the source; here every loop takes
explicit fuel and returns `none` when the fuel runs out, so the functions
stay total and evaluable.  `ni` and `ui` index the next unconsumed
standard-normal and uniform draw of the `RandomSource`. -/

/-- The inner retry loop of the sampler (source lines 305–311): draw a
standard normal `x`, set `v = 1 + c * x`, retry until `v > 0`. -/
def innerNormal (rs : RandomSource) (c : F) : ℕ → ℕ → Option (F × F × ℕ)
  | 0, _ => none
  | fuel + 1, ni =>
    let x := rs.normal ni
    let v := F.add (F.finite 1) (F.mul c x)
    if F.lt 0 v then some (x, v, ni + 1) else innerNormal rs c fuel (ni + 1)

/-- The outer acceptance loop of the sampler (source lines 302–319):
after the inner loop, `v` is cubed and `x` squared in place, a uniform `u`
is drawn, and the draw is accepted when `u < 1 - 0.0331 * x * x` or
`ln u < 0.5 * x + d * (1 - v - ln v)`, returning `afix * d * v / rate`. -/
def sampleLoop (mf : MathFuns) (rs : RandomSource) (d c afix rate : F)
    (innerFuel : ℕ) : ℕ → ℕ → ℕ → Option F
  | 0, _, _ => none
  | fuel + 1, ui, ni =>
    match innerNormal rs c innerFuel ni with
    | none => none
    | some (x0, v0, ni1) =>
      let v := F.mul v0 (F.mul v0 v0)
      let x := F.mul x0 x0
      let u := rs.uniform ui
      if F.lt u (F.sub (F.finite 1) (F.mul (F.mul (F.finite (331 / 10000)) x) x)) ||
          F.lt (lnF mf.ln u)
            (F.add (F.mul (F.finite (1 / 2)) x)
              (F.mul d (F.sub (F.sub (F.finite 1) v) (lnF mf.ln v)))) then
        some (F.div (F.mul (F.mul afix d) v) rate)
      else sampleLoop mf rs d c afix rate innerFuel fuel (ui + 1) ni1

/-- `sample_unchecked` (source lines 292–320): the Marsaglia–Tsang
sampler.  When `shape < 1` the shape is boosted by one and the first
uniform draw is spent on the correction factor `afix`. -/
def sample_unchecked (mf : MathFuns) (rs : RandomSource) (shape rate : F)
    (outerFuel innerFuel : ℕ) : Option F :=
  let boosted := F.lt shape (F.finite 1)
  let a := if boosted then F.add shape (F.finite 1) else shape
  let afix :=
    if boosted then powfF mf.powf (rs.uniform 0) (F.div (F.finite 1) shape)
    else F.finite 1
  let ui0 := if boosted then 1 else 0
  let d := F.sub a (F.finite (1 / 3))
  let c := F.div (F.finite 1) (sqrtF mf.sqrt (F.mul (F.finite 9) d))
  sampleLoop mf rs d c afix rate innerFuel outerFuel ui0 0

/-- The acceptance loop as the claim words it: after `v` is cubed and `x`
squared, accept when `u < 1 - 0.0331 * x²` or
`ln u < 0.5 * x² + d * (1 - v - ln v)`. -/
def sampleLoopClaimed (mf : MathFuns) (rs : RandomSource) (d c afix rate : F)
    (innerFuel : ℕ) : ℕ → ℕ → ℕ → Option F
  | 0, _, _ => none
  | fuel + 1, ui, ni =>
    match innerNormal rs c innerFuel ni with
    | none => none
    | some (x0, v0, ni1) =>
      let v := F.mul v0 (F.mul v0 v0)
      let x := F.mul x0 x0
      let u := rs.uniform ui
      if F.lt u (F.sub (F.finite 1) (F.mul (F.mul (F.finite (331 / 10000)) x) x)) ||
          F.lt (lnF mf.ln u)
            (F.add (F.mul (F.finite (1 / 2)) (F.mul x x))
              (F.mul d (F.sub (F.sub (F.finite 1) v) (lnF mf.ln v)))) then
        some (F.div (F.mul (F.mul afix d) v) rate)
      else sampleLoopClaimed mf rs d c afix rate innerFuel fuel (ui + 1) ni1

/-- The sampler exactly as the claim describes it: `a`/`afix` from the
boost-and-correct step, `d = a - 1/3`, `c = 1/sqrt(9 d)`, then the claimed
acceptance loop. -/
def sampleClaimed (mf : MathFuns) (rs : RandomSource) (shape rate : F)
    (outerFuel innerFuel : ℕ) : Option F :=
  let boosted := F.lt shape (F.finite 1)
  let a := if boosted then F.add shape (F.finite 1) else shape
  let afix :=
    if boosted then powfF mf.powf (rs.uniform 0) (F.div (F.finite 1) shape)
    else F.finite 1
  let ui0 := if boosted then 1 else 0
  let d := F.sub a (F.finite (1 / 3))
  let c := F.div (F.finite 1) (sqrtF mf.sqrt (F.mul (F.finite 9) d))
  sampleLoopClaimed mf rs d c afix rate innerFuel outerFuel ui0 0

/-- The acceptance loop of the amended claim: accept when
`u < 1 - 0.0331 * x²` or `ln u < 0.5 * x + d * (1 - v - ln v)`, where `x`
is the already-squared normal draw. -/
def sampleLoopAmended (mf : MathFuns) (rs : RandomSource) (d c afix rate : F)
    (innerFuel : ℕ) : ℕ → ℕ → ℕ → Option F
  | 0, _, _ => none
  | fuel + 1, ui, ni =>
    match innerNormal rs c innerFuel ni with
    | none => none
    | some (x0, v0, ni1) =>
      let v := F.mul v0 (F.mul v0 v0)
      let x := F.mul x0 x0
      let u := rs.uniform ui
      if F.lt u (F.sub (F.finite 1) (F.mul (F.mul (F.finite (331 / 10000)) x) x)) ||
          F.lt (lnF mf.ln u)
            (F.add (F.mul (F.finite (1 / 2)) x)
              (F.mul d (F.sub (F.sub (F.finite 1) v) (lnF mf.ln v)))) then
        some (F.div (F.mul (F.mul afix d) v) rate)
      else sampleLoopAmended mf rs d c afix rate innerFuel fuel (ui + 1) ni1

/-- The sampler as the amended claim describes it, with the initial split
worded as in the spec: if `shape ≥ 1` then `a = shape`, `afix = 1`, else
the boost-and-correct step. -/
def sampleAmended (mf : MathFuns) (rs : RandomSource) (shape rate : F)
    (outerFuel innerFuel : ℕ) : Option F :=
  let plain := F.le (F.finite 1) shape
  let a := if plain then shape else F.add shape (F.finite 1)
  let afix :=
    if plain then F.finite 1
    else powfF mf.powf (rs.uniform 0) (F.div (F.finite 1) shape)
  let ui0 := if plain then 0 else 1
  let d := F.sub a (F.finite (1 / 3))
  let c := F.div (F.finite 1) (sqrtF mf.sqrt (F.mul (F.finite 9) d))
  sampleLoopAmended mf rs d c afix rate innerFuel outerFuel ui0 0

/-! ## Generic facts about the float model -/

instance {e a : Type} [DecidableEq e] [DecidableEq a] : DecidableEq (Except e a) :=
  fun x y =>
    match x, y with
    | Except.error u, Except.error v =>
      if h : u = v then Decidable.isTrue (by simp [h])
      else Decidable.isFalse (by simp [h])
    | Except.ok u, Except.ok v =>
      if h : u = v then Decidable.isTrue (by simp [h])
      else Decidable.isFalse (by simp [h])
    | Except.error _, Except.ok _ => Decidable.isFalse (by simp)
    | Except.ok _, Except.error _ => Decidable.isFalse (by simp)

/-- The largest finite double, `(2^53 - 1) * 2^971`, as an exact
rational (built without deep cast recursion so that it stays
evaluable). -/
def maxFinite : ℚ := (((Nat.shiftLeft 1 53 - 1) * Nat.shiftLeft 1 971 : ℕ) : ℚ)

/-- Concrete providers used to instantiate witnesses: each special
function is a constant plausible value. -/
def sfW : SpecFuns where
  gamma : F → F := fun _ => F.finite 2
  ln_gamma : F → F := fun _ => F.finite 1
  digamma : F → F := fun _ => F.finite 1
  gamma_lr : F → F → F := fun _ _ => F.finite (1 / 2)

/-- Concrete finite graphs used to instantiate witnesses. -/
def mfW : MathFuns where
  exp := fun _ => 1
  ln := fun _ => 0
  powf := fun _ _ => 1
  sqrt := fun _ => 1

/-- Finite graphs used in the sampler counterexample, holding plausible
rational approximations at the points the run visits:
`sqrt 15 ≈ 4`, `ln(1/2) ≈ -0.7`, `ln(27/8) ≈ 1.25`. -/
def mfC : MathFuns where
  exp := fun _ => 1
  ln := fun q => if q = 1 / 2 then -7 / 10 else if q = 27 / 8 then 5 / 4 else 0
  powf := fun _ _ => 1
  sqrt := fun q => if q = 15 then 4 else 0

/-- Draws used in the sampler counterexample: the first standard-normal
draw is 2 (every later one is 0), every uniform draw is 1/2. -/
def rsC : RandomSource where
  uniform := fun _ => F.finite (1 / 2)
  normal := fun i => if i = 0 then F.finite 2 else F.finite 0

/-! ## Generic lemmas -/

@[simp] theorem F.le_def (a b : F) : (a ≤ b) = (F.le a b = true) := rfl

@[simp] theorem F.lt_def (a b : F) : (a < b) = (F.lt a b = true) := rfl

theorem F.mulNegLeft (a b : F) : F.mul (F.neg a) b = F.neg (F.mul a b) := by
  cases a <;> cases b <;>
    simp only [F.mul, F.neg, neg_mul, neg_pos, neg_lt_zero] <;>
    (try split_ifs) <;> first | rfl | (exfalso; linarith)

/-! ## The claims -/

/-- C4: `new(shape, rate)` fails with `BadParameters` exactly when a
parameter is NaN or nonpositive, and otherwise returns the value whose
`shape`/`rate` accessors give back the arguments. -/
theorem claim4_constructor (shape rate : F) :
    (Gamma.new shape rate = Except.error StatsError.badParams ↔
      shape.isNaN = true ∨ rate.isNaN = true ∨ F.le shape 0 = true ∨ F.le rate 0 = true)
    ∧ (Gamma.new shape rate = Except.ok ⟨shape, rate⟩ ↔
      ¬(shape.isNaN = true ∨ rate.isNaN = true ∨ F.le shape 0 = true ∨ F.le rate 0 = true))
    ∧ (Gamma.mk shape rate).shape = shape ∧ (Gamma.mk shape rate).rate = rate := by
  cases hs : shape.isNaN <;> cases hr : rate.isNaN <;>
    cases hs0 : F.le shape 0 <;> cases hr0 : F.le rate 0 <;>
    simp [Gamma.new, hs, hr, hs0, hr0]

/-- C1: the branch policy of `cdf`, in priority order: `x ≤ 0` gives 0;
then ULP-equality of `x` and the shape with infinite rate gives 1; then
infinite rate gives 0; then infinite `x` gives 1; otherwise the
regularized lower incomplete gamma `P(shape, x * rate)`. -/
theorem claim1_cdf_branches (sf : SpecFuns) (g : Gamma) (hv : g.Valid) (x : F) :
    (F.le x 0 = true → Gamma.cdf sf g x = F.finite 0)
    ∧ (F.le x 0 = false → F.ulpsEq x g.shape = true → g.rate.isInfinite = true →
        Gamma.cdf sf g x = F.finite 1)
    ∧ (F.le x 0 = false → F.ulpsEq x g.shape = false → g.rate.isInfinite = true →
        Gamma.cdf sf g x = F.finite 0)
    ∧ (F.le x 0 = false → g.rate.isInfinite = false → x.isInfinite = true →
        Gamma.cdf sf g x = F.finite 1)
    ∧ (F.le x 0 = false → g.rate.isInfinite = false → x.isInfinite = false →
        Gamma.cdf sf g x = sf.gamma_lr g.shape (F.mul x g.rate)) := by
  refine ⟨fun h1 => by simp [Gamma.cdf, h1],
    fun h1 h2 h3 => by simp [Gamma.cdf, h1, h2, h3],
    fun h1 h2 h3 => by simp [Gamma.cdf, h1, h2, h3],
    fun h1 h2 h3 => by simp [Gamma.cdf, h1, h2, h3],
    fun h1 h2 h3 => by simp [Gamma.cdf, h1, h2, h3]⟩

/-- Witness for C1: a valid distribution and a point that reaches the
final branch. -/
theorem claim1_witness :
    Gamma.cdf sfW ⟨F.finite 3, F.finite 1⟩ (F.finite 5) =
      sfW.gamma_lr (F.finite 3) (F.mul (F.finite 5) (F.finite 1)) :=
  (claim1_cdf_branches sfW ⟨F.finite 3, F.finite 1⟩ (by with_unfolding_all decide)
      (F.finite 5)).2.2.2.2
    (by with_unfolding_all decide) (by with_unfolding_all decide)
    (by with_unfolding_all decide)

/-- C2: the branch policy of `pdf`, in priority order: `x < 0` gives 0;
shape ULP-equal to 1 gives `rate * exp(-(rate * x))`; shape above 160
routes through `exp(ln_pdf x)`; infinite `x` gives 0; otherwise the
direct density formula. -/
theorem claim2_pdf_branches (sf : SpecFuns) (mf : MathFuns) (g : Gamma)
    (hv : g.Valid) (x : F) :
    (F.lt x 0 = true → Gamma.pdf sf mf g x = F.finite 0)
    ∧ (F.lt x 0 = false → F.ulpsEq g.shape (F.finite 1) = true →
        Gamma.pdf sf mf g x = F.mul g.rate (expF mf.exp (F.neg (F.mul g.rate x))))
    ∧ (F.lt x 0 = false → F.ulpsEq g.shape (F.finite 1) = false →
        F.lt (F.finite 160) g.shape = true →
        Gamma.pdf sf mf g x = expF mf.exp (Gamma.ln_pdf sf mf g x))
    ∧ (F.lt x 0 = false → F.ulpsEq g.shape (F.finite 1) = false →
        F.lt (F.finite 160) g.shape = false → x.isInfinite = true →
        Gamma.pdf sf mf g x = F.finite 0)
    ∧ (F.lt x 0 = false → F.ulpsEq g.shape (F.finite 1) = false →
        F.lt (F.finite 160) g.shape = false → x.isInfinite = false →
        Gamma.pdf sf mf g x =
          F.div
            (F.mul
              (F.mul (powfF mf.powf g.rate g.shape)
                (powfF mf.powf x (F.sub g.shape (F.finite 1))))
              (expF mf.exp (F.neg (F.mul g.rate x))))
            (sf.gamma g.shape)) := by
  refine ⟨fun h1 => by simp [Gamma.pdf, h1],
    fun h1 h2 => by simp [Gamma.pdf, h1, h2, F.mulNegLeft],
    fun h1 h2 h3 => by simp [Gamma.pdf, h1, h2, h3],
    fun h1 h2 h3 h4 => by simp [Gamma.pdf, h1, h2, h3, h4],
    fun h1 h2 h3 h4 => by simp [Gamma.pdf, h1, h2, h3, h4, F.mulNegLeft]⟩

/-- Witness for C2: a valid distribution and a point that reaches the
final branch. -/
theorem claim2_witness :
    Gamma.pdf sfW mfW ⟨F.finite 3, F.finite 1⟩ (F.finite 2) =
      F.div
        (F.mul
          (F.mul (powfF mfW.powf (F.finite 1) (F.finite 3))
            (powfF mfW.powf (F.finite 2) (F.sub (F.finite 3) (F.finite 1))))
          (expF mfW.exp (F.neg (F.mul (F.finite 1) (F.finite 2)))))
        (sfW.gamma (F.finite 3)) :=
  (claim2_pdf_branches sfW mfW ⟨F.finite 3, F.finite 1⟩ (by with_unfolding_all decide)
      (F.finite 2)).2.2.2.2
    (by with_unfolding_all decide) (by with_unfolding_all decide)
    (by with_unfolding_all decide) (by with_unfolding_all decide)

/-- C8: the branch policy of `ln_pdf`, in priority order: `x < 0` gives
`-∞`; shape ULP-equal to 1 gives `ln(rate) - rate * x`; infinite `x`
gives `-∞`; otherwise the log-domain density formula. -/
theorem claim8_ln_pdf_branches (sf : SpecFuns) (mf : MathFuns) (g : Gamma)
    (hv : g.Valid) (x : F) :
    (F.lt x 0 = true → Gamma.ln_pdf sf mf g x = F.ninf)
    ∧ (F.lt x 0 = false → F.ulpsEq g.shape (F.finite 1) = true →
        Gamma.ln_pdf sf mf g x = F.sub (lnF mf.ln g.rate) (F.mul g.rate x))
    ∧ (F.lt x 0 = false → F.ulpsEq g.shape (F.finite 1) = false →
        x.isInfinite = true → Gamma.ln_pdf sf mf g x = F.ninf)
    ∧ (F.lt x 0 = false → F.ulpsEq g.shape (F.finite 1) = false →
        x.isInfinite = false →
        Gamma.ln_pdf sf mf g x =
          F.sub
            (F.sub
              (F.add (F.mul g.shape (lnF mf.ln g.rate))
                (F.mul (F.sub g.shape (F.finite 1)) (lnF mf.ln x)))
              (F.mul g.rate x))
            (sf.ln_gamma g.shape)) := by
  refine ⟨fun h1 => by simp [Gamma.ln_pdf, h1],
    fun h1 h2 => by simp [Gamma.ln_pdf, h1, h2],
    fun h1 h2 h3 => by simp [Gamma.ln_pdf, h1, h2, h3],
    fun h1 h2 h3 => by simp [Gamma.ln_pdf, h1, h2, h3]⟩

/-- Witness for C8: a valid distribution and a point that reaches the
final branch. -/
theorem claim8_witness :
    Gamma.ln_pdf sfW mfW ⟨F.finite 3, F.finite 1⟩ (F.finite 2) =
      F.sub
        (F.sub
          (F.add (F.mul (F.finite 3) (lnF mfW.ln (F.finite 1)))
            (F.mul (F.sub (F.finite 3) (F.finite 1)) (lnF mfW.ln (F.finite 2))))
          (F.mul (F.finite 1) (F.finite 2)))
        (sfW.ln_gamma (F.finite 3)) :=
  (claim8_ln_pdf_branches sfW mfW ⟨F.finite 3, F.finite 1⟩
      (by with_unfolding_all decide) (F.finite 2)).2.2.2
    (by with_unfolding_all decide) (by with_unfolding_all decide)
    (by with_unfolding_all decide)

/-- C5: the closed-form moments: `mean = shape/rate`,
`variance = shape/rate²`, `skewness = 2/sqrt(shape)` independently of the
rate, `mode = (shape-1)/rate` with no filtering of negative values
(witnessed by a shape below one), and the entropy formula
`shape - ln(rate) + ln Γ(shape) + (1 - shape) ψ(shape)`. -/
theorem claim5_moments (sf : SpecFuns) (mf : MathFuns) (g : Gamma)
    (hv : g.Valid) :
    Gamma.mean g = some (F.div g.shape g.rate)
    ∧ Gamma.variance g = some (F.div g.shape (F.mul g.rate g.rate))
    ∧ Gamma.skewness mf g = some (F.div (F.finite 2) (sqrtF mf.sqrt g.shape))
    ∧ (∀ r1 r2 : F, Gamma.skewness mf ⟨g.shape, r1⟩ = Gamma.skewness mf ⟨g.shape, r2⟩)
    ∧ Gamma.mode g = some (F.div (F.sub g.shape (F.finite 1)) g.rate)
    ∧ Gamma.mode ⟨F.finite (1 / 2), F.finite 1⟩ = some (F.finite (-(1 / 2)))
    ∧ Gamma.entropy sf mf g =
        some
          (F.add (F.add (F.sub g.shape (lnF mf.ln g.rate)) (sf.ln_gamma g.shape))
            (F.mul (F.sub (F.finite 1) g.shape) (sf.digamma g.shape))) :=
  ⟨rfl, rfl, rfl, fun _ _ => rfl, rfl, by with_unfolding_all decide, rfl⟩

/-- Witness for C5 at a concrete valid distribution. -/
theorem claim5_witness :
    Gamma.mean ⟨F.finite 10, F.finite 10⟩ =
      some (F.div (F.finite 10) (F.finite 10)) :=
  (claim5_moments sfW mfW ⟨F.finite 10, F.finite 10⟩
      (by with_unfolding_all decide)).1

/-- C9 (amended): with a finite valid shape that is not ULP-equal to
`+∞` and an infinite rate, `cdf(+∞) = 0`, because the rate-infinite
branch is checked before the `x`-infinite branch. -/
theorem claim9_cdf_inf_amended (sf : SpecFuns) (g : Gamma) (hv : g.Valid)
    (hs : g.shape.isFinite = true) (hr : g.rate.isInfinite = true)
    (hu : F.ulpsEq F.inf g.shape = false) :
    Gamma.cdf sf g F.inf = F.finite 0 := by
  have h0 : F.le F.inf 0 = false := by with_unfolding_all decide
  simp [Gamma.cdf, h0, hu, hr]

/-- Witness for the amended C9: shape 10, infinite rate. -/
theorem claim9_witness :
    Gamma.cdf sfW ⟨F.finite 10, F.inf⟩ F.inf = F.finite 0 :=
  claim9_cdf_inf_amended sfW ⟨F.finite 10, F.inf⟩
    (by with_unfolding_all decide) (by with_unfolding_all decide)
    (by with_unfolding_all decide) (by with_unfolding_all decide)

/-- Counterexample to C9 as stated: the largest finite double is within
four ULPs of `+∞`, so for that (finite, valid) shape the ULP-equality
branch fires first and `cdf(+∞)` is 1, not 0. -/
theorem claim9_counterexample :
    Gamma.new (F.finite maxFinite) F.inf =
      Except.ok ⟨F.finite maxFinite, F.inf⟩
    ∧ (F.finite maxFinite).isFinite = true
    ∧ Gamma.cdf sfW ⟨F.finite maxFinite, F.inf⟩ F.inf = F.finite 1
    ∧ Gamma.cdf sfW ⟨F.finite maxFinite, F.inf⟩ F.inf ≠ F.finite 0 := by
  have hu : F.ulpsEq F.inf (F.finite maxFinite) = true := by with_unfolding_all decide
  have hle : F.le F.inf (0 : F) = false := by with_unfolding_all decide
  have h3 : F.le (F.finite maxFinite) 0 = false := by with_unfolding_all decide
  have hnew : Gamma.new (F.finite maxFinite) F.inf =
      Except.ok ⟨F.finite maxFinite, F.inf⟩ := by
    simp [Gamma.new, F.isNaN, h3, hle]
  refine ⟨hnew, rfl, ?_, ?_⟩ <;> simp [Gamma.cdf, hle, hu, F.isInfinite]

/-- C10: for a valid shape strictly between 0 and 1 (not ULP-equal to 1)
and a finite rate, `pdf(0) = +∞` (the general branch evaluates
`0^(shape-1)` with a negative exponent) and `ln_pdf(0) = +∞` (the general
branch evaluates `(shape-1) * ln 0 = (negative) * (-∞)`), provided the
provider values involved are finite and positive as the real special
functions are on this range. -/
theorem claim10_pdf_at_zero (sf : SpecFuns) (mf : MathFuns) (g : Gamma)
    (hv : g.Valid)
    (hs1 : F.lt g.shape (F.finite 1) = true)
    (hu : F.ulpsEq g.shape (F.finite 1) = false)
    (hrf : g.rate.isFinite = true)
    (hpow : ∃ c : ℚ, 0 < c ∧ powfF mf.powf g.rate g.shape = F.finite c)
    (hexp : 0 < mf.exp 0)
    (hgam : ∃ c : ℚ, 0 < c ∧ sf.gamma g.shape = F.finite c)
    (hlngam : ∃ c : ℚ, sf.ln_gamma g.shape = F.finite c) :
    Gamma.pdf sf mf g (F.finite 0) = F.inf
    ∧ Gamma.ln_pdf sf mf g (F.finite 0) = F.inf := by
  obtain ⟨gs, gr⟩ := g
  obtain ⟨hvs, hvr⟩ := hv
  cases gs with
  | nan => simp [F.lt] at hvs
  | inf => simp [F.lt] at hs1
  | ninf => simp [F.lt] at hvs
  | finite s =>
  cases gr with
  | nan => simp [F.isFinite] at hrf
  | inf => simp [F.isFinite] at hrf
  | ninf => simp [F.isFinite] at hrf
  | finite r =>
  simp only [F.lt, decide_eq_true_eq] at hvs hvr hs1
  obtain ⟨a, hapos, ha⟩ := hpow
  obtain ⟨gc, hgcpos, hgc⟩ := hgam
  obtain ⟨lc, hlc⟩ := hlngam
  have hxlt : F.lt (F.finite 0) (0 : F) = false := by decide
  have h160 : F.lt (F.finite 160) (F.finite s) = false := by
    simp only [F.lt, decide_eq_false_iff_not]
    linarith
  have hsub1 : F.sub (F.finite s) (F.finite 1) = F.finite (s + -1) := rfl
  have hyneg : s + -1 < 0 := by linarith
  have hyne : s + -1 ≠ 0 := ne_of_lt hyneg
  have hynlt : ¬(0 < s + -1) := by linarith
  have hpow0 : powfF mf.powf (F.finite 0) (F.finite (s + -1)) = F.inf := by
    simp [powfF, hyne, hynlt]
  have hmulneg : F.mul (F.neg (F.finite r)) (F.finite 0) = F.finite 0 := by
    simp [F.neg, F.mul]
  have hexp0 : expF mf.exp (F.finite 0) = F.finite (mf.exp 0) := rfl
  constructor
  · simp only [Gamma.pdf, hxlt, hu, h160, hsub1, F.isInfinite, hmulneg, hexp0,
      hpow0, ha, hgc, Bool.false_eq_true, if_false]
    simp only [F.mul, if_pos hapos, if_pos hexp, F.div, if_pos (le_of_lt hgcpos)]
  · have hln0 : lnF mf.ln (F.finite 0) = F.ninf := by
      simp [lnF]
    have hlnr : lnF mf.ln (F.finite r) = F.finite (mf.ln r) := by
      simp only [lnF, if_neg (by linarith : ¬r < 0), if_neg (by linarith : ¬r = 0)]
    have hmulninf : F.mul (F.finite (s + -1)) F.ninf = F.inf := by
      simp only [F.mul, if_neg hynlt, if_pos hyneg]
    simp only [Gamma.ln_pdf, hxlt, hu, F.isInfinite, hsub1, hln0, hlnr, hmulninf,
      hlc, Bool.false_eq_true, if_false]
    simp only [F.mul, F.add, F.sub, F.neg]

/-- Witness for C10: shape 1/2, rate 1, with provider values at the
needed points taken close to the real special functions
(`Γ(1/2) ≈ 1.77`, `ln Γ(1/2) ≈ 0.57`, `exp 0 = 1`, `1^(1/2) = 1`). -/
theorem claim10_witness :
    Gamma.pdf
        ⟨fun _ => F.finite (7 / 4), fun _ => F.finite (4 / 7), fun _ => F.finite 1,
          fun _ _ => F.finite (1 / 2)⟩
        mfW ⟨F.finite (1 / 2), F.finite 1⟩ (F.finite 0) = F.inf
    ∧ Gamma.ln_pdf
        ⟨fun _ => F.finite (7 / 4), fun _ => F.finite (4 / 7), fun _ => F.finite 1,
          fun _ _ => F.finite (1 / 2)⟩
        mfW ⟨F.finite (1 / 2), F.finite 1⟩ (F.finite 0) = F.inf :=
  claim10_pdf_at_zero
    ⟨fun _ => F.finite (7 / 4), fun _ => F.finite (4 / 7), fun _ => F.finite 1,
      fun _ _ => F.finite (1 / 2)⟩
    mfW ⟨F.finite (1 / 2), F.finite 1⟩
    (by with_unfolding_all decide) (by with_unfolding_all decide)
    (by with_unfolding_all decide) (by with_unfolding_all decide)
    ⟨1, by norm_num, by with_unfolding_all decide⟩ (by with_unfolding_all decide)
    ⟨7 / 4, by norm_num, rfl⟩ ⟨4 / 7, rfl⟩

/-- The amended acceptance loop coincides with the source's loop (they
differ only in wording). -/
theorem sampleLoopAmended_eq (mf : MathFuns) (rs : RandomSource)
    (d c afix rate : F) (iF : ℕ) :
    ∀ oF ui ni, sampleLoopAmended mf rs d c afix rate iF oF ui ni =
      sampleLoop mf rs d c afix rate iF oF ui ni := by
  intro oF
  induction oF with
  | zero => intro ui ni; rfl
  | succ n ih =>
    intro ui ni
    simp only [sampleLoop, sampleLoopAmended]
    cases innerNormal rs c iF ni with
    | none => rfl
    | some t =>
      obtain ⟨x0, v0, ni1⟩ := t
      simp only [ih]

/-- On non-NaN shapes, the spec's `shape ≥ 1` test is the negation of the
source's `shape < 1` test. -/
theorem F.ge_one_eq_not_lt_one (shape : F) (h : F.lt 0 shape = true) :
    F.le (F.finite 1) shape = !F.lt shape (F.finite 1) := by
  cases shape with
  | nan => simp [F.lt] at h
  | inf => simp [F.le, F.lt]
  | ninf => simp [F.lt] at h
  | finite s =>
    simp only [F.le, F.lt]
    by_cases h1 : s < 1
    · simp [h1, not_le_of_lt h1]
    · simp [h1, le_of_not_lt h1]

/-- C3 (amended): given `shape > 0`, `rate > 0`, the sampler follows the
Marsaglia–Tsang algorithm as the claim describes it, with the second
acceptance test corrected to `ln u < 0.5 * x + d * (1 - v - ln v)` where
`x` is the already-squared normal draw. -/
theorem claim3_sampler_amended (mf : MathFuns) (rs : RandomSource)
    (shape rate : F) (oF iF : ℕ)
    (hs : F.lt 0 shape = true) (hr : F.lt 0 rate = true) :
    sample_unchecked mf rs shape rate oF iF = sampleAmended mf rs shape rate oF iF := by
  unfold sample_unchecked sampleAmended
  rw [F.ge_one_eq_not_lt_one shape hs]
  cases hb : F.lt shape (F.finite 1) <;>
    simp only [Bool.not_false, Bool.not_true, if_true, if_false] <;>
    exact (sampleLoopAmended_eq mf rs _ _ _ rate iF oF _ 0).symm

/-- Witness for the amended C3 at concrete draws and providers. -/
theorem claim3_witness :
    sample_unchecked mfC rsC (F.finite 2) (F.finite 1) 3 3 =
      sampleAmended mfC rsC (F.finite 2) (F.finite 1) 3 3 :=
  claim3_sampler_amended mfC rsC (F.finite 2) (F.finite 1) 3 3
    (by with_unfolding_all decide) (by with_unfolding_all decide)

/-- Counterexample to C3 as stated: with shape 2 and rate 1 (`d = 5/3`,
`c = 1/4` under the counterexample's square root), a first normal draw of
2 and uniform draws of 1/2, the source rejects the first iteration
(`ln u < 0.5 * x + ...` fails, where `x = 4` is the squared draw) and
accepts the second, returning `5/3`, while the claim's acceptance test
`ln u < 0.5 * x² + ...` accepts the first iteration and returns `45/8`. -/
theorem claim3_counterexample :
    F.lt 0 (F.finite 2) = true ∧ F.lt 0 (F.finite 1) = true
    ∧ sample_unchecked mfC rsC (F.finite 2) (F.finite 1) 3 3 = some (F.finite (5 / 3))
    ∧ sampleClaimed mfC rsC (F.finite 2) (F.finite 1) 3 3 = some (F.finite (45 / 8))
    ∧ (5 / 3 : ℚ) ≠ 45 / 8 := by
  with_unfolding_all decide

/-- Unpacking `0 ≤ a` in the float order: `a` is `+∞` or a nonnegative
finite value. -/
theorem F.nonneg_cases (a : F) (h : (0 : F) ≤ a) :
    a = F.inf ∨ ∃ q : ℚ, a = F.finite q ∧ 0 ≤ q := by
  cases a with
  | nan => simp [F.le] at h
  | inf => exact Or.inl rfl
  | ninf => simp [F.le] at h
  | finite q =>
    refine Or.inr ⟨q, rfl, ?_⟩
    simpa [F.le] using h

theorem F.nonneg_inf : (0 : F) ≤ F.inf := by with_unfolding_all decide

theorem F.nonneg_finite {q : ℚ} (h : 0 ≤ q) : (0 : F) ≤ F.finite q := by
  simp [F.le, h]

/-- A nonnegative exponential graph makes `expF` nonnegative or NaN. -/
theorem expF_nonneg (e : ℚ → ℚ) (he : ∀ q, 0 ≤ e q) (z : F) :
    (0 : F) ≤ expF e z ∨ (expF e z).isNaN = true := by
  cases z with
  | nan => exact Or.inr rfl
  | inf => exact Or.inl F.nonneg_inf
  | ninf => exact Or.inl (F.nonneg_finite le_rfl)
  | finite q => exact Or.inl (F.nonneg_finite (he q))

/-- Multiplication keeps "nonnegative or NaN". -/
theorem F.mul_nonneg_or_nan {a b : F} (ha : (0 : F) ≤ a ∨ a.isNaN = true)
    (hb : (0 : F) ≤ b ∨ b.isNaN = true) :
    (0 : F) ≤ F.mul a b ∨ (F.mul a b).isNaN = true := by
  rcases ha with ha | ha
  · rcases hb with hb | hb
    · rcases F.nonneg_cases a ha with rfl | ⟨p, rfl, hp⟩
      · rcases F.nonneg_cases b hb with rfl | ⟨q, rfl, hq⟩
        · exact Or.inl F.nonneg_inf
        · rcases hq.lt_or_eq with hq1 | rfl
          · exact Or.inl (by simp only [F.mul, if_pos hq1]; exact F.nonneg_inf)
          · exact Or.inr (by simp [F.mul, F.isNaN])
      · rcases F.nonneg_cases b hb with rfl | ⟨q, rfl, hq⟩
        · rcases hp.lt_or_eq with hp1 | rfl
          · exact Or.inl (by simp only [F.mul, if_pos hp1]; exact F.nonneg_inf)
          · exact Or.inr (by simp [F.mul, F.isNaN])
        · exact Or.inl (F.nonneg_finite (mul_nonneg hp hq))
    · cases b with
      | nan => exact Or.inr (by cases a <;> rfl)
      | inf => simp [F.isNaN] at hb
      | ninf => simp [F.isNaN] at hb
      | finite q => simp [F.isNaN] at hb
  · cases a with
    | nan => exact Or.inr (by cases b <;> rfl)
    | inf => simp [F.isNaN] at ha
    | ninf => simp [F.isNaN] at ha
    | finite q => simp [F.isNaN] at ha

/-- Division of a nonnegative-or-NaN value by a nonnegative value keeps
"nonnegative or NaN". -/
theorem F.div_nonneg_or_nan {a b : F} (ha : (0 : F) ≤ a ∨ a.isNaN = true)
    (hb : (0 : F) ≤ b) :
    (0 : F) ≤ F.div a b ∨ (F.div a b).isNaN = true := by
  rcases ha with ha | ha
  · rcases F.nonneg_cases a ha with rfl | ⟨p, rfl, hp⟩
    · rcases F.nonneg_cases b hb with rfl | ⟨q, rfl, hq⟩
      · exact Or.inr rfl
      · exact Or.inl (by simp only [F.div, if_pos hq]; exact F.nonneg_inf)
    · rcases F.nonneg_cases b hb with rfl | ⟨q, rfl, hq⟩
      · exact Or.inl (F.nonneg_finite le_rfl)
      · by_cases hq0 : q = 0
        · subst hq0
          rcases hp.lt_or_eq with hp1 | rfl
          · exact Or.inl (by
              simp only [F.div, if_pos rfl, if_neg (ne_of_gt hp1), if_pos hp1]
              exact F.nonneg_inf)
          · exact Or.inr (by simp [F.div, F.isNaN])
        · exact Or.inl (by
            simp only [F.div, if_neg hq0]
            exact F.nonneg_finite (div_nonneg hp hq))
  · cases a with
    | nan => exact Or.inr (by cases b <;> rfl)
    | inf => simp [F.isNaN] at ha
    | ninf => simp [F.isNaN] at ha
    | finite q => simp [F.isNaN] at ha

/-- With a nonnegative base and a finite-graph `powf` that is nonnegative
on positive bases, `powfF` is nonnegative or NaN. -/
theorem powfF_nonneg (p : ℚ → ℚ → ℚ) (hp : ∀ x y : ℚ, 0 < x → 0 ≤ p x y)
    {b : F} (hb : (0 : F) ≤ b) (y : F) :
    (0 : F) ≤ powfF p b y ∨ (powfF p b y).isNaN = true := by
  rcases F.nonneg_cases b hb with rfl | ⟨q, rfl, hq⟩
  · cases y <;> simp only [powfF] <;> (try split_ifs) <;>
      first
        | exact Or.inr rfl
        | exact Or.inl F.nonneg_inf
        | exact Or.inl (F.nonneg_finite le_rfl)
        | exact Or.inl (F.nonneg_finite zero_le_one)
  · rcases hq.lt_or_eq with hqpos | rfl
    · cases y <;> simp only [powfF] <;> (try split_ifs) <;>
        first
          | exact Or.inr rfl
          | exact Or.inl F.nonneg_inf
          | exact Or.inl (F.nonneg_finite le_rfl)
          | exact Or.inl (F.nonneg_finite zero_le_one)
          | exact Or.inl (F.nonneg_finite (hp q _ hqpos))
          | (exfalso; linarith)
    · cases y <;> simp only [powfF] <;> (try split_ifs) <;>
        first
          | exact Or.inr rfl
          | exact Or.inl F.nonneg_inf
          | exact Or.inl (F.nonneg_finite le_rfl)
          | exact Or.inl (F.nonneg_finite zero_le_one)
          | (exfalso; linarith)

/-- A value bounded below by zero is not strictly below zero. -/
theorem F.not_lt_zero_of_nonneg {x : F} (h : (0 : F) ≤ x) :
    F.lt x 0 = false := by
  rcases F.nonneg_cases x h with rfl | ⟨q, rfl, hq⟩
  · rfl
  · simp [F.lt, not_lt_of_le hq]

/-- Strict positivity gives nonnegativity in the float order. -/
theorem F.nonneg_of_pos {x : F} (h : F.lt 0 x = true) : (0 : F) ≤ x := by
  cases x with
  | nan => simp [F.lt] at h
  | inf => exact F.nonneg_inf
  | ninf => simp [F.lt] at h
  | finite q =>
    simp only [F.lt, decide_eq_true_eq] at h
    exact F.nonneg_finite (le_of_lt h)

/-- C7 (amended): `pdf(x) = 0` for `x < 0`; for `x ≥ 0` the density is
nonnegative or NaN (NaN does occur, e.g. with an infinite rate at a
finite positive point, as the spec documents), provided the providers are
nonnegative in the way the real special functions are. -/
theorem claim7_pdf_sign_amended (sf : SpecFuns) (mf : MathFuns) (g : Gamma)
    (hv : g.Valid)
    (hexp : ∀ q, 0 ≤ mf.exp q)
    (hpow : ∀ x y : ℚ, 0 < x → 0 ≤ mf.powf x y)
    (hgam : (0 : F) ≤ sf.gamma g.shape) (x : F) :
    (F.lt x 0 = true → Gamma.pdf sf mf g x = F.finite 0)
    ∧ ((0 : F) ≤ x →
        (0 : F) ≤ Gamma.pdf sf mf g x ∨ (Gamma.pdf sf mf g x).isNaN = true) := by
  constructor
  · intro h1
    simp [Gamma.pdf, h1]
  · intro hx
    have hrate : (0 : F) ≤ g.rate := F.nonneg_of_pos hv.2
    unfold Gamma.pdf
    split_ifs with h1 h2 h3 h4
    · exact Or.inl (F.nonneg_finite le_rfl)
    · exact F.mul_nonneg_or_nan (Or.inl hrate)
        (expF_nonneg mf.exp hexp _)
    · exact expF_nonneg mf.exp hexp _
    · exact Or.inl (F.nonneg_finite le_rfl)
    · refine F.div_nonneg_or_nan ?_ hgam
      refine F.mul_nonneg_or_nan (F.mul_nonneg_or_nan ?_ ?_) ?_
      · exact powfF_nonneg mf.powf hpow hrate g.shape
      · exact powfF_nonneg mf.powf hpow hx _
      · exact expF_nonneg mf.exp hexp _

/-- Witness for the amended C7 at shape 3, rate 1, `x = 2`. -/
theorem claim7_witness :
    (0 : F) ≤ Gamma.pdf sfW mfW ⟨F.finite 3, F.finite 1⟩ (F.finite 2)
    ∨ (Gamma.pdf sfW mfW ⟨F.finite 3, F.finite 1⟩ (F.finite 2)).isNaN = true :=
  (claim7_pdf_sign_amended sfW mfW ⟨F.finite 3, F.finite 1⟩
      (by with_unfolding_all decide)
      (fun q => by norm_num [mfW])
      (fun x y hx => by norm_num [mfW])
      (by with_unfolding_all decide) (F.finite 2)).2
    (by with_unfolding_all decide)

/-- Counterexample to C7 as stated: with the valid parameters shape 10,
rate `+∞`, the density at the nonnegative point 1 is NaN, which is not
`≥ 0`. -/
theorem claim7_counterexample :
    Gamma.new (F.finite 10) F.inf = Except.ok ⟨F.finite 10, F.inf⟩
    ∧ (0 : F) ≤ F.finite 1
    ∧ (Gamma.pdf sfW mfW ⟨F.finite 10, F.inf⟩ (F.finite 1)).isNaN = true
    ∧ F.le 0 (Gamma.pdf sfW mfW ⟨F.finite 10, F.inf⟩ (F.finite 1)) = false := by
  with_unfolding_all decide

/-- An upper bound that is not below zero keeps larger values not below
zero. -/
theorem F.le_zero_false_trans {x1 x2 : F} (h : F.le x1 x2 = true)
    (h1 : F.le x1 0 = false) : F.le x2 0 = false := by
  cases x1 <;> cases x2 <;> simp_all [F.le] <;> linarith

theorem F.isInfinite_inf : F.inf.isInfinite = true := rfl

theorem F.isInfinite_finite (q : ℚ) : (F.finite q).isInfinite = false := rfl

theorem F.le_inf_zero : F.le F.inf 0 = false := rfl

theorem F.le_ninf_zero : F.le F.ninf 0 = true := rfl

/-- With a finite rate the ULP branch of `cdf` is dead: the function is
the three-way split on `x ≤ 0`, `x` infinite, and the provider call. -/
theorem Gamma.cdf_rate_finite (sf : SpecFuns) (g : Gamma)
    (h : g.rate.isInfinite = false) (x : F) :
    Gamma.cdf sf g x =
      if F.le x 0 then F.finite 0
      else if x.isInfinite then F.finite 1
      else sf.gamma_lr g.shape (F.mul x g.rate) := by
  simp [Gamma.cdf, h]

/-- Monotonicity of `cdf` over a finite rate, given a monotone provider
bounded by `[0, 1]`. -/
theorem Gamma.cdf_mono_aux (sf : SpecFuns) (shape : F) (r : ℚ) (hr : 0 < r)
    (hmono : ∀ a x y : F, F.le x y = true →
      F.le (sf.gamma_lr a x) (sf.gamma_lr a y) = true)
    (hlo : ∀ a x : F, F.le (F.finite 0) (sf.gamma_lr a x) = true)
    (hhi : ∀ a x : F, F.le (sf.gamma_lr a x) (F.finite 1) = true)
    (x1 x2 : F) (h12 : F.le x1 x2 = true) :
    F.le (Gamma.cdf sf ⟨shape, F.finite r⟩ x1)
      (Gamma.cdf sf ⟨shape, F.finite r⟩ x2) = true := by
  have hninf : (F.finite r).isInfinite = false := rfl
  rw [Gamma.cdf_rate_finite sf ⟨shape, F.finite r⟩ hninf,
    Gamma.cdf_rate_finite sf ⟨shape, F.finite r⟩ hninf]
  cases x1 with
  | nan => simp [F.le] at h12
  | ninf =>
    rw [if_pos F.le_ninf_zero]
    by_cases h2 : F.le x2 0 = true
    · rw [if_pos h2]
      with_unfolding_all decide
    · rw [if_neg h2]
      by_cases h3 : x2.isInfinite = true
      · rw [if_pos h3]
        with_unfolding_all decide
      · rw [if_neg h3]
        exact hlo _ _
  | inf =>
    cases x2 with
    | nan => simp [F.le] at h12
    | ninf => simp [F.le] at h12
    | finite q => simp [F.le] at h12
    | inf =>
      rw [if_neg (by simp [F.le_inf_zero]), if_pos F.isInfinite_inf]
      with_unfolding_all decide
  | finite p =>
    cases x2 with
    | nan => simp [F.le] at h12
    | ninf => simp [F.le] at h12
    | inf =>
      by_cases hp0 : F.le (F.finite p) 0 = true
      · rw [if_pos hp0, if_neg (by simp [F.le_inf_zero]), if_pos F.isInfinite_inf]
        with_unfolding_all decide
      · rw [if_neg hp0, if_neg (by simp [F.isInfinite_finite]),
          if_neg (by simp [F.le_inf_zero]), if_pos F.isInfinite_inf]
        exact hhi _ _
    | finite q =>
      have hpq : p ≤ q := by simpa [F.le] using h12
      by_cases hp0 : F.le (F.finite p) 0 = true
      · rw [if_pos hp0]
        by_cases hq0 : F.le (F.finite q) 0 = true
        · rw [if_pos hq0]
          with_unfolding_all decide
        · rw [if_neg hq0, if_neg (by simp [F.isInfinite_finite])]
          exact hlo _ _
      · have hq0 : F.le (F.finite q) 0 = false :=
          F.le_zero_false_trans h12 (by revert hp0; cases F.le (F.finite p) 0 <;> simp)
        rw [if_neg hp0, if_neg (by simp [F.isInfinite_finite]), if_neg (by simp [hq0]),
          if_neg (by simp [F.isInfinite_finite])]
        refine hmono _ _ _ ?_
        simp only [F.mul, F.le, decide_eq_true_eq]
        exact mul_le_mul_of_nonneg_right hpq (le_of_lt hr)

/-- C6 (amended): `cdf(0) = 0` for every valid distribution; when the
rate is finite (and the provider's regularized lower incomplete gamma is
monotone with values in `[0, 1]`, as the real one is), `cdf` is
non-decreasing and `cdf(+∞) = 1`.  For an infinite rate the monotonicity
fails (see the counterexample). -/
theorem claim6_cdf_monotone_amended (sf : SpecFuns) (g : Gamma) (hv : g.Valid)
    (hmono : ∀ a x y : F, F.le x y = true →
      F.le (sf.gamma_lr a x) (sf.gamma_lr a y) = true)
    (hlo : ∀ a x : F, F.le (F.finite 0) (sf.gamma_lr a x) = true)
    (hhi : ∀ a x : F, F.le (sf.gamma_lr a x) (F.finite 1) = true) :
    Gamma.cdf sf g (F.finite 0) = F.finite 0
    ∧ (g.rate.isFinite = true →
        (∀ x1 x2 : F, F.le x1 x2 = true →
          F.le (Gamma.cdf sf g x1) (Gamma.cdf sf g x2) = true)
        ∧ Gamma.cdf sf g F.inf = F.finite 1) := by
  constructor
  · have h0 : F.le (F.finite 0) (0 : F) = true := by with_unfolding_all decide
    simp [Gamma.cdf, h0]
  · intro hrf
    obtain ⟨gs, gr⟩ := g
    obtain ⟨hvs, hvr⟩ := hv
    cases gr with
    | nan => simp [F.isFinite] at hrf
    | inf => simp [F.isFinite] at hrf
    | ninf => simp [F.isFinite] at hrf
    | finite r =>
      have hrpos : 0 < r := by simpa [F.lt] using hvr
      constructor
      · exact Gamma.cdf_mono_aux sf gs r hrpos hmono hlo hhi
      · rw [Gamma.cdf_rate_finite sf ⟨gs, F.finite r⟩ rfl]
        rw [if_neg (by simp [F.le_inf_zero]), if_pos F.isInfinite_inf]

/-- Witness for the amended C6: the constant provider `1/2` is monotone
with values in `[0, 1]`. -/
theorem claim6_witness :
    Gamma.cdf sfW ⟨F.finite 3, F.finite 1⟩ (F.finite 0) = F.finite 0
    ∧ F.le (Gamma.cdf sfW ⟨F.finite 3, F.finite 1⟩ (F.finite 1))
        (Gamma.cdf sfW ⟨F.finite 3, F.finite 1⟩ (F.finite 2)) = true
    ∧ Gamma.cdf sfW ⟨F.finite 3, F.finite 1⟩ F.inf = F.finite 1 := by
  have T := claim6_cdf_monotone_amended sfW ⟨F.finite 3, F.finite 1⟩
    (by with_unfolding_all decide)
    (fun a x y h => by with_unfolding_all rfl)
    (fun a x => by with_unfolding_all rfl)
    (fun a x => by with_unfolding_all rfl)
  have T2 := T.2 (by with_unfolding_all decide)
  exact ⟨T.1, T2.1 (F.finite 1) (F.finite 2) (by with_unfolding_all decide), T2.2⟩

/-- Counterexample to C6 as stated: with the valid parameters shape 10,
rate `+∞`, the cdf jumps from 1 at `x = 10` (the ULP branch) down to 0 at
`x = 11`, so it is not non-decreasing. -/
theorem claim6_counterexample :
    Gamma.new (F.finite 10) F.inf = Except.ok ⟨F.finite 10, F.inf⟩
    ∧ F.le (F.finite 10) (F.finite 11) = true
    ∧ Gamma.cdf sfW ⟨F.finite 10, F.inf⟩ (F.finite 10) = F.finite 1
    ∧ Gamma.cdf sfW ⟨F.finite 10, F.inf⟩ (F.finite 11) = F.finite 0
    ∧ F.le (Gamma.cdf sfW ⟨F.finite 10, F.inf⟩ (F.finite 10))
        (Gamma.cdf sfW ⟨F.finite 10, F.inf⟩ (F.finite 11)) = false := by
  with_unfolding_all decide
